import Mathlib

/-!
Verification of the SUPRSS repository against its natural-language
specification.  The development shallowly embeds

* the PostgreSQL schema (tables, defaults, unique constraints, triggers,
  `ON DELETE CASCADE` rules and the two views) of the SQL creation script;
* the React application context (`AppContext.jsx`): collection / article
  state and the operations `addCollection`, `updateCollection`,
  `deleteCollection`, `addFeedToCollection`, `markArticleAsRead`,
  `toggleFavorite`, `updateMemberPermissions`;
* the `FeedsList` and `MembersList` component handlers; and
* the OPML export/import pair `generateOPML` / `parseOPMLFile` of
  `ImportOPMLForm.jsx`, together with a model of the browser XML parser.

All definitions are executable; strings are embedded as `List Char`
(`Str`) where character-level induction is needed and as `String`
elsewhere.
-/

namespace Suprss

abbrev Str := List Char

/-! ## Frontend data model (`AppContext.jsx`, `constants.js` shapes)

Objects carried in React state.  Fields that the JavaScript sometimes
leaves undefined (`member.permissions`, an absent `email`) are embedded
as `Option`; the `|| fallback` guards of the source are kept at every
use site. -/

structure Feed where
  id : Nat
  name : String
  url : String
  tags : List String
  active : Bool
deriving DecidableEq

structure Stats where
  totalArticles : Nat
  weeklyArticles : Nat
  activeFeeds : Nat
  activeMembers : Nat
deriving DecidableEq

structure Member where
  id : Nat
  name : String
  email : Option String
  initials : String
  role : String
  permissions : Option (List String)
deriving DecidableEq

structure Collection where
  id : Nat
  name : String
  emoji : String
  unreadCount : Nat
  feeds : List Feed
  members : List Member
  stats : Stats
deriving DecidableEq

structure Article where
  id : Nat
  unread : Bool
  favorite : Bool
  title : String
  excerpt : String
  source : String
  time : String
deriving DecidableEq

/-- Fields of the argument object spread into the new collection by
`addCollection`; every other field of the result is overwritten there. -/
structure CollectionInput where
  name : String
  emoji : String
deriving DecidableEq

/-- The member record built inside `addCollection`. -/
def creatorMember : Member :=
  { id := 1, name := "Vous", email := none, initials := "VH",
    role := "creator", permissions := some ["read", "add", "edit", "comment"] }

/-- `addCollection` of `AppContext.jsx`: appends a fresh collection whose
`id` is `Date.now()` (the `now` parameter), with empty feeds, the single
creator member and zeroed stats. -/
def addCollection (collections : List Collection) (input : CollectionInput)
    (now : Nat) : List Collection :=
  collections ++
    [{ id := now, name := input.name, emoji := input.emoji, unreadCount := 0,
       feeds := [],
       members := [creatorMember],
       stats := { totalArticles := 0, weeklyArticles := 0, activeFeeds := 0,
                  activeMembers := 1 } }]

/-- The `updates` object passed to `updateCollection`; only the fields the
embedded callers use (`feeds`, `stats`) are modelled, `none` meaning the
key is absent from the object. -/
structure CollectionUpdates where
  feeds : Option (List Feed)
  stats : Option Stats
deriving DecidableEq

/-- `updateCollection` of `AppContext.jsx`: `{ ...col, ...updates }` on the
collection whose id matches. -/
def updateCollection (collections : List Collection) (collectionId : Nat)
    (updates : CollectionUpdates) : List Collection :=
  collections.map fun col =>
    if col.id = collectionId then
      { col with feeds := updates.feeds.getD col.feeds,
                 stats := updates.stats.getD col.stats }
    else col

/-- React state touched by `deleteCollection`. -/
structure AppState where
  collections : List Collection
  activeCollection : Option Collection
deriving DecidableEq

/-- `deleteCollection` of `AppContext.jsx`: filters the collection out; when
the active collection carried the deleted id, the new active collection is
`collections[0]` of the captured (pre-deletion) list. -/
def deleteCollection (st : AppState) (collectionId : Nat) : AppState :=
  { collections := st.collections.filter (fun col => col.id ≠ collectionId),
    activeCollection :=
      match st.activeCollection with
      | some ac => if ac.id = collectionId then st.collections.head? else some ac
      | none => none }

/-- `addFeedToCollection` of `AppContext.jsx`: appends `{ ...feed, id: Date.now() }`
to the matching collection and bumps `stats.activeFeeds` by one. -/
def addFeedToCollection (collections : List Collection) (collectionId : Nat)
    (feed : Feed) (now : Nat) : List Collection :=
  collections.map fun col =>
    if col.id = collectionId then
      { col with feeds := col.feeds ++ [{ feed with id := now }],
                 stats := { col.stats with activeFeeds := col.stats.activeFeeds + 1 } }
    else col

/-- `markArticleAsRead` of `AppContext.jsx`. -/
def markArticleAsRead (articles : List Article) (articleId : Nat) : List Article :=
  articles.map fun article =>
    if article.id = articleId then { article with unread := false } else article

/-- `toggleFavorite` of `AppContext.jsx`. -/
def toggleFavorite (articles : List Article) (articleId : Nat) : List Article :=
  articles.map fun article =>
    if article.id = articleId then { article with favorite := !article.favorite }
    else article

/-- `updateMemberPermissions` of `AppContext.jsx`. -/
def updateMemberPermissions (collections : List Collection) (collectionId : Nat)
    (memberId : Nat) (permissions : List String) : List Collection :=
  collections.map fun col =>
    if col.id = collectionId then
      { col with members := col.members.map fun member =>
          if member.id = memberId then { member with permissions := some permissions }
          else member }
    else col

/-- `handlePermissionChange` of `MembersList.jsx`: looks the member up in the
`collection` prop, refuses to touch the creator, otherwise adds or removes
the permission and stores the new list through `updateMemberPermissions`. -/
def handlePermissionChange (collections : List Collection) (collection : Collection)
    (memberId : Nat) (permission : String) (checked : Bool) : List Collection :=
  match collection.members.find? (fun m => m.id = memberId) with
  | none => collections
  | some member =>
    if member.role ≠ "creator" then
      let currentPermissions := member.permissions.getD []
      let newPermissions :=
        if checked then currentPermissions ++ [permission]
        else currentPermissions.filter (fun p => p ≠ permission)
      updateMemberPermissions collections collection.id memberId newPermissions
    else collections

/-- Count of feeds with `active = true`, as recomputed by the `FeedsList`
handlers (`updatedFeeds.filter(f => f.active).length`). -/
def countActiveFeeds (feeds : List Feed) : Nat :=
  (feeds.filter (fun f => f.active)).length

/-- `handleDeleteFeed` of `FeedsList.jsx`. -/
def handleDeleteFeed (collections : List Collection) (collection : Collection)
    (feedId : Nat) : List Collection :=
  let updatedFeeds := collection.feeds.filter (fun feed => feed.id ≠ feedId)
  updateCollection collections collection.id
    { feeds := some updatedFeeds,
      stats := some { collection.stats with activeFeeds := countActiveFeeds updatedFeeds } }

/-- `handleToggleFeedStatus` of `FeedsList.jsx`. -/
def handleToggleFeedStatus (collections : List Collection) (collection : Collection)
    (feedId : Nat) : List Collection :=
  let updatedFeeds := collection.feeds.map fun feed =>
    if feed.id = feedId then { feed with active := !feed.active } else feed
  updateCollection collections collection.id
    { feeds := some updatedFeeds,
      stats := some { collection.stats with activeFeeds := countActiveFeeds updatedFeeds } }

/-! ## Relational schema model (SQL creation script)

Rows of the tables the claims touch.  `SERIAL` surrogate keys are kept
only where another table references them; timestamp columns are embedded
as `Nat` (or `Option Nat` for nullable ones) where a claim mentions
them. -/

/-- The `role_membre` enumerated type. -/
inductive RoleMembre where
  | proprietaire
  | administrateur
  | moderateur
  | membre
deriving DecidableEq

/-- A row of `collection`. -/
structure CollectionRow where
  id : Nat
  nom : String
  description : Option String
  est_partagee : Bool
  proprietaire_id : Nat
  cree_le : Nat
  modifie_le : Nat
deriving DecidableEq

/-- A row of `membre_collection` (the surrogate `id` is referenced by no
other table and is omitted). -/
structure MembreRow where
  collection_id : Nat
  utilisateur_id : Nat
  role : RoleMembre
  peut_ajouter_flux : Bool
  peut_lire : Bool
  peut_commenter : Bool
  peut_modifier : Bool
  peut_supprimer : Bool
deriving DecidableEq

/-- A row of `flux_rss`. -/
structure FluxRow where
  id : Nat
  nom : String
  url : String
  description : Option String
  frequence_maj_heures : Nat
  est_actif : Bool
deriving DecidableEq

/-- A row of `article`. -/
structure ArticleRow where
  id : Nat
  flux_id : Nat
  titre : String
  lien : String
  guid : String
deriving DecidableEq

/-- A row of `collection_flux`. -/
structure CollectionFluxRow where
  collection_id : Nat
  flux_id : Nat
  ajoute_par_utilisateur_id : Nat
deriving DecidableEq

/-- A row of `commentaire_article`; `id` is kept because
`commentaire_parent_id` references it (`ON DELETE CASCADE`). -/
structure CommentaireRow where
  id : Nat
  article_id : Nat
  utilisateur_id : Nat
  collection_id : Nat
  contenu : String
  commentaire_parent_id : Option Nat
deriving DecidableEq

/-- A row of `message_collection`. -/
structure MessageRow where
  collection_id : Nat
  utilisateur_id : Nat
  contenu : String
deriving DecidableEq

/-- A row of `statut_utilisateur_article`. -/
structure StatutRow where
  utilisateur_id : Nat
  article_id : Nat
  est_lu : Bool
  est_favori : Bool
  lu_le : Option Nat
  mis_en_favori_le : Option Nat
deriving DecidableEq

/-- A `membre_collection` row inserted with only the two foreign keys
explicit, all remaining columns taking their declared `DEFAULT`s. -/
def defaultMembre (cid uid : Nat) : MembreRow :=
  { collection_id := cid, utilisateur_id := uid, role := .membre,
    peut_ajouter_flux := true, peut_lire := true, peut_commenter := true,
    peut_modifier := false, peut_supprimer := false }

/-- The row inserted by the trigger function
`ajouter_proprietaire_comme_membre`: role `'proprietaire'` and all five
capability flags `TRUE`. -/
def ownerMembre (cid uid : Nat) : MembreRow :=
  { collection_id := cid, utilisateur_id := uid, role := .proprietaire,
    peut_ajouter_flux := true, peut_lire := true, peut_commenter := true,
    peut_modifier := true, peut_supprimer := true }

/-! ### Claim C1: collection insertion with the AFTER INSERT trigger -/

/-- The two tables claim C1 is about. -/
structure CollectionsState where
  collections : List CollectionRow
  membres : List MembreRow
deriving DecidableEq

/-- Inserting a `collection` row: the row is appended and the
`AFTER INSERT` trigger `trigger_ajouter_proprietaire_membre` fires,
inserting the owner membership row built from `NEW.id` and
`NEW.proprietaire_id`. -/
def insertCollection (st : CollectionsState) (row : CollectionRow) : CollectionsState :=
  { collections := st.collections ++ [row],
    membres := st.membres ++ [ownerMembre row.id row.proprietaire_id] }

/-- Database states reachable from the empty database by inserting
collections (each insertion firing the trigger). -/
inductive ReachColl : CollectionsState → Prop where
  | init : ReachColl ⟨[], []⟩
  | step {st : CollectionsState} (row : CollectionRow) :
      ReachColl st → ReachColl (insertCollection st row)

/-- The auto-membership invariant: every collection's owner is a member
with role `proprietaire` and all five flags `TRUE`. -/
def OwnerIsMember (st : CollectionsState) : Prop :=
  ∀ c ∈ st.collections, ∃ m ∈ st.membres,
    m.collection_id = c.id ∧ m.utilisateur_id = c.proprietaire_id ∧
    m.role = .proprietaire ∧
    m.peut_ajouter_flux = true ∧ m.peut_lire = true ∧ m.peut_commenter = true ∧
    m.peut_modifier = true ∧ m.peut_supprimer = true

/-! ### Claim C2: cascading delete of a collection -/

/-- The tables involved in deleting a `collection` row. -/
structure DBState where
  collections : List CollectionRow
  membres : List MembreRow
  collection_flux : List CollectionFluxRow
  commentaires : List CommentaireRow
  messages : List MessageRow
  flux : List FluxRow
  articles : List ArticleRow
deriving DecidableEq

/-- One round of the `commentaire_parent_id ... ON DELETE CASCADE` rule:
a comment whose parent id no longer resolves is deleted as well. -/
def cascadeStep (cs : List CommentaireRow) : List CommentaireRow :=
  cs.filter fun c =>
    match c.commentaire_parent_id with
    | none => true
    | some p => cs.any (fun d => d.id = p)

/-- Iterate `cascadeStep`. -/
def cascadeIter : Nat → List CommentaireRow → List CommentaireRow
  | 0, cs => cs
  | n + 1, cs => cascadeIter n (cascadeStep cs)

/-- Comments surviving the deletion of collection `cid`: first the direct
`fk_commentaire_collection` cascade removes the collection's comments,
then the `fk_commentaire_parent` cascade removes descendants of removed
comments (list-length many rounds reach the fixed point). -/
def pruneCommentaires (cid : Nat) (cs : List CommentaireRow) : List CommentaireRow :=
  let direct := cs.filter (fun c => c.collection_id ≠ cid)
  cascadeIter direct.length direct

/-- `DELETE FROM collection WHERE id = cid` with the declared
`ON DELETE CASCADE` rules: `membre_collection`, `collection_flux`,
`commentaire_article` and `message_collection` rows referencing the
collection are removed; `flux_rss` and `article` carry no foreign key to
`collection` and are untouched. -/
def deleteCollectionRow (st : DBState) (cid : Nat) : DBState :=
  { collections := st.collections.filter (fun c => c.id ≠ cid),
    membres := st.membres.filter (fun m => m.collection_id ≠ cid),
    collection_flux := st.collection_flux.filter (fun cf => cf.collection_id ≠ cid),
    commentaires := pruneCommentaires cid st.commentaires,
    messages := st.messages.filter (fun m => m.collection_id ≠ cid),
    flux := st.flux,
    articles := st.articles }

/-! ### Claim C3: membership defaults and the unique constraint -/

/-- Insertions into `membre_collection` guarded by the
`unique_membre_collection UNIQUE(collection_id, utilisateur_id)`
constraint: an insert violating it is rejected, so only states built
from accepted inserts are reachable. -/
inductive ReachMembres : List MembreRow → Prop where
  | init : ReachMembres []
  | step {t : List MembreRow} (r : MembreRow)
      (huniq : ∀ m ∈ t, ¬(m.collection_id = r.collection_id ∧
        m.utilisateur_id = r.utilisateur_id)) :
      ReachMembres t → ReachMembres (t ++ [r])

/-- Distinctness of the `(collection_id, utilisateur_id)` key across a
`membre_collection` table. -/
def MembreKeysDistinct (t : List MembreRow) : Prop :=
  t.Pairwise fun a b =>
    ¬(a.collection_id = b.collection_id ∧ a.utilisateur_id = b.utilisateur_id)

/-! ### Claim C5: per-user status and `vue_articles_utilisateur` -/

/-- Insertions into `statut_utilisateur_article` guarded by
`unique_statut_utilisateur_article UNIQUE(utilisateur_id, article_id)`. -/
inductive ReachStatuts : List StatutRow → Prop where
  | init : ReachStatuts []
  | step {t : List StatutRow} (r : StatutRow)
      (huniq : ∀ s ∈ t, ¬(s.utilisateur_id = r.utilisateur_id ∧
        s.article_id = r.article_id)) :
      ReachStatuts t → ReachStatuts (t ++ [r])

/-- Distinctness of the `(utilisateur_id, article_id)` key. -/
def StatutKeysDistinct (t : List StatutRow) : Prop :=
  t.Pairwise fun a b =>
    ¬(a.utilisateur_id = b.utilisateur_id ∧ a.article_id = b.article_id)

/-- The tables `vue_articles_utilisateur` reads, plus the `utilisateur`
ids (the view itself does not join `utilisateur`). -/
structure ViewState where
  utilisateurs : List Nat
  articles : List ArticleRow
  flux : List FluxRow
  statuts : List StatutRow
deriving DecidableEq

/-- A row of `vue_articles_utilisateur`. -/
structure VueArticleRow where
  id : Nat
  titre : String
  nom_flux : String
  flux_id : Nat
  est_lu : Bool
  est_favori : Bool
  lu_le : Option Nat
  mis_en_favori_le : Option Nat
  utilisateur_id : Option Nat
deriving DecidableEq

/-- The view row for article `a` of feed `f` joined with status row `s`. -/
def vueRowOf (a : ArticleRow) (f : FluxRow) (s : StatutRow) : VueArticleRow :=
  { id := a.id, titre := a.titre, nom_flux := f.nom, flux_id := f.id,
    est_lu := s.est_lu, est_favori := s.est_favori,
    lu_le := s.lu_le, mis_en_favori_le := s.mis_en_favori_le,
    utilisateur_id := some s.utilisateur_id }

/-- The view row for article `a` of feed `f` when the `LEFT JOIN` on
`statut_utilisateur_article` finds no match: every `s.*` column is NULL
and the two `COALESCE(..., FALSE)` columns read `FALSE`. -/
def vueRowNull (a : ArticleRow) (f : FluxRow) : VueArticleRow :=
  { id := a.id, titre := a.titre, nom_flux := f.nom, flux_id := f.id,
    est_lu := false, est_favori := false,
    lu_le := none, mis_en_favori_le := none,
    utilisateur_id := none }

/-- `vue_articles_utilisateur`: `article JOIN flux_rss ON a.flux_id = f.id
LEFT JOIN statut_utilisateur_article s ON a.id = s.article_id`, with
`COALESCE(s.est_lu, FALSE)` and `COALESCE(s.est_favori, FALSE)`.  Note
the left join matches on the article alone, not on a user. -/
def vueArticlesUtilisateur (st : ViewState) : List VueArticleRow :=
  st.articles.flatMap fun a =>
    (st.flux.filter (fun f => f.id = a.flux_id)).flatMap fun f =>
      let ss := st.statuts.filter (fun s => s.article_id = a.id)
      if ss.isEmpty then [vueRowNull a f] else ss.map (vueRowOf a f)

/-! ### Claim C4: the schema's trigger functions -/

/-- The trigger functions the SQL script defines
(`CREATE OR REPLACE FUNCTION ... RETURNS TRIGGER`). -/
inductive TriggerFunction where
  | update_modifie_le_column
  | ajouter_proprietaire_comme_membre
deriving DecidableEq

/-- Firing events of the script's `CREATE TRIGGER` statements. -/
inductive TriggerEvent where
  | beforeUpdate
  | afterInsert
deriving DecidableEq

/-- Every trigger function defined in the schema, in script order. -/
def schemaTriggerFunctions : List TriggerFunction :=
  [.update_modifie_le_column, .ajouter_proprietaire_comme_membre]

/-- Every `CREATE TRIGGER` of the script: table, event, function. -/
def schemaTriggers : List (String × TriggerEvent × TriggerFunction) :=
  [("utilisateur", .beforeUpdate, .update_modifie_le_column),
   ("collection", .beforeUpdate, .update_modifie_le_column),
   ("flux_rss", .beforeUpdate, .update_modifie_le_column),
   ("article", .beforeUpdate, .update_modifie_le_column),
   ("commentaire_article", .beforeUpdate, .update_modifie_le_column),
   ("message_collection", .beforeUpdate, .update_modifie_le_column),
   ("collection", .afterInsert, .ajouter_proprietaire_comme_membre)]

/-- The body of `update_modifie_le_column` on a `collection` row:
`NEW.modifie_le = CURRENT_TIMESTAMP; RETURN NEW`. -/
def updateModifieLeCollection (r : CollectionRow) (now : Nat) : CollectionRow :=
  { r with modifie_le := now }

/-! ## OPML export and import (`ImportOPMLForm.jsx`)

`generateOPML` builds the document by plain string interpolation (no XML
escaping); `parseOPMLFile` feeds the text to the browser's `DOMParser`
and collects `outline[xmlUrl]` elements.  Strings are embedded as
`List Char` so the round-trip can be settled character by character. -/

/-- JavaScript `a || b` on two nullable strings: `null` and `''` are falsy. -/
def jsOr : Option Str → Option Str → Option Str
  | none, b => b
  | some v, b => if v = [] then b else some v

/-- JavaScript `a || b` where the fallback is a string literal. -/
def jsOrStr (a : Option Str) (b : Str) : Str :=
  match a with
  | none => b
  | some v => if v = [] then b else v

/-- A feed object handed to `generateOPML` (`data.feeds` elements): the
fields the template literal reads. -/
structure OPMLFeedIn where
  title : Str
  url : Str
  htmlUrl : Option Str
  category : Option Str
deriving DecidableEq

/-- The feed object built by `parseOPMLFile` for each matched outline. -/
structure ParsedFeed where
  title : Option Str
  url : Option Str
  htmlUrl : Option Str
  category : Str
  selected : Bool
deriving DecidableEq

/-- Literal `'Non catégorisé'`. -/
def nonCategorise : Str := "Non catégorisé".data

/-- Category key of a feed during export grouping:
`feed.category || 'Non catégorisé'`. -/
def catOf (f : OPMLFeedIn) : Str := jsOrStr f.category nonCategorise

/-- The five literal pieces of the per-feed template
`<outline type="rss" text="${title}" title="${title}" xmlUrl="${url}" htmlUrl="${htmlUrl || ''}" />`,
including the leading newline and indentation. -/
def ocLit1 : Str := "\n      <outline type=\"rss\" text=\"".data

/-- Literal between the two title insertions. -/
def ocLit2 : Str := "\" title=\"".data

/-- Literal before the `xmlUrl` value. -/
def ocLit3 : Str := "\" xmlUrl=\"".data

/-- Literal before the `htmlUrl` value. -/
def ocLit4 : Str := "\" htmlUrl=\"".data

/-- Closing literal of the per-feed outline. -/
def ocLit5 : Str := "\" />".data

/-- One `<outline type="rss" .../>` line of the export. -/
def feedOutline (f : OPMLFeedIn) : Str :=
  ocLit1 ++ f.title ++ ocLit2 ++ f.title ++ ocLit3 ++ f.url ++
    ocLit4 ++ f.htmlUrl.getD [] ++ ocLit5

/-- Opening literal of a category wrapper `<outline text="${category}">`. -/
def catLit1 : Str := "\n    <outline text=\"".data

/-- Closing literal of the category wrapper's opening tag. -/
def catLit2 : Str := "\">".data

/-- The category wrapper's closing tag. -/
def catLit3 : Str := "\n    </outline>".data

/-- First-occurrence deduplication: the key order of a JavaScript object
populated by `categories[category].push(feed)` and read back with
`Object.entries`. -/
def firstDedupAux (seen : List Str) : List Str → List Str
  | [] => []
  | a :: l => if a ∈ seen then firstDedupAux seen l
              else a :: firstDedupAux (a :: seen) l

/-- First-occurrence deduplication of a key list. -/
def firstDedup (l : List Str) : List Str := firstDedupAux [] l

/-- Body of the export with `includeCategories` on: feeds grouped per
category key, groups in first-occurrence order. -/
def groupedBody (feeds : List OPMLFeedIn) : Str :=
  (firstDedup (feeds.map catOf)).flatMap fun c =>
    catLit1 ++ c ++ catLit2 ++
      (feeds.filter (fun f => catOf f = c)).flatMap feedOutline ++ catLit3

/-- Body of the export with `includeCategories` off. -/
def flatBody (feeds : List OPMLFeedIn) : Str := feeds.flatMap feedOutline

/-- Header literal up to the first `${date}` insertion. -/
def opmlLit1 : Str :=
  ("<?xml version=\"1.0\" encoding=\"UTF-8\"?>\n<opml version=\"2.0\">\n" ++
   "  <head>\n    <title>SUPRSS Export</title>\n    <dateCreated>").data

/-- Header literal between the two `${date}` insertions. -/
def opmlLit2 : Str := "</dateCreated>\n    <dateModified>".data

/-- Header literal after the second `${date}` insertion. -/
def opmlLit3 : Str := "</dateModified>\n  </head>\n  <body>".data

/-- Closing literal of the document. -/
def opmlLit4 : Str := "\n  </body>\n</opml>".data

/-- `generateOPML` of `ImportOPMLForm.jsx`, with the `Date().toUTCString()`
value and the `exportOptions.includeCategories` flag as parameters. -/
def generateOPML (includeCategories : Bool) (date : Str)
    (feeds : List OPMLFeedIn) : Str :=
  opmlLit1 ++ date ++ opmlLit2 ++ date ++ opmlLit3 ++
    (if includeCategories then groupedBody feeds else flatBody feeds) ++ opmlLit4

/-! ### Model of the browser XML parser

Modelled from the spec: `parseOPMLFile` delegates the XML reading to the
browser's `DOMParser` and `querySelectorAll('outline[xmlUrl]')`, which are
not part of this repository; the spec describes OPML only as "an
XML-based outline format".  The model below tokenises `<...>` tags,
reads `name="value"` attributes, and walks the tags in document order
keeping the stack of open elements (for `outline.parentElement`).  It is
lenient: entity references and markup errors that a conforming parser
would reject (a raw `&`, a `"` inside a double-quoted attribute value)
are passed through instead of aborting the parse. -/

/-- Tag tokeniser: collects the contents of every `<...>` region of the
document, dropping text nodes.  The accumulator is `some acc` while
inside a tag. -/
def lexTags : Str → Option Str → List Str
  | [], _ => []
  | c :: rest, none =>
      if c = '<' then lexTags rest (some []) else lexTags rest none
  | c :: rest, some acc =>
      if c = '>' then acc :: lexTags rest none
      else lexTags rest (some (acc ++ [c]))

/-- Attribute-reader states: between attributes, inside a name, after
`=`, inside a double-quoted value. -/
inductive AMode where
  | idle
  | aname (acc : Str)
  | assign (n : Str)
  | aval (n : Str) (acc : Str)

/-- Attribute reader over the contents of one tag. -/
def attrsAux : Str → AMode → List (Str × Str)
  | [], _ => []
  | c :: rest, .idle =>
      if c = ' ' ∨ c = '/' then attrsAux rest .idle
      else attrsAux rest (.aname [c])
  | c :: rest, .aname acc =>
      if c = '=' then attrsAux rest (.assign acc)
      else if c = ' ' then attrsAux rest .idle
      else attrsAux rest (.aname (acc ++ [c]))
  | c :: rest, .assign n =>
      if c = '"' then attrsAux rest (.aval n [])
      else if c = ' ' then attrsAux rest (.assign n)
      else attrsAux rest .idle
  | c :: rest, .aval n acc =>
      if c = '"' then (n, acc) :: attrsAux rest .idle
      else attrsAux rest (.aval n (acc ++ [c]))

/-- Attributes of one tag. -/
def parseAttrs (t : Str) : List (Str × Str) := attrsAux t .idle

/-- `getAttribute`: first attribute of the given name, `null` when absent. -/
def getAttr (t : Str) (name : Str) : Option Str :=
  ((parseAttrs t).find? (fun p => p.1 = name)).map (fun p => p.2)

/-- Element name of a tag: its contents up to the first space or slash. -/
def tagName (t : Str) : Str :=
  t.takeWhile fun c => ¬(c = ' ' ∨ c = '/')

/-- A closing tag `</...>`. -/
def isCloseTag (t : Str) : Bool := t.head? = some '/'

/-- A self-closing tag `<... />`. -/
def isSelfClosing (t : Str) : Bool := t.getLast? = some '/'

/-- The `text` attribute of the parent element, read off the open-element
stack. -/
def parentText (stack : List (Option Str)) : Option Str :=
  match stack with
  | [] => none
  | t :: _ => t

/-- The feed object `parseOPMLFile` builds from one matched outline:
`title: getAttribute('title') || getAttribute('text')`,
`url: getAttribute('xmlUrl')`, `htmlUrl: getAttribute('htmlUrl')`,
`category: parentElement.getAttribute('text') || 'Non catégorisé'`,
`selected: true`. -/
def mkParsedFeed (t : Str) (stack : List (Option Str)) : ParsedFeed :=
  { title := jsOr (getAttr t "title".data) (getAttr t "text".data),
    url := getAttr t "xmlUrl".data,
    htmlUrl := getAttr t "htmlUrl".data,
    category := jsOrStr (parentText stack) nonCategorise,
    selected := true }

/-- Document-order walk over the tag stream: collects every `outline`
element carrying an `xmlUrl` attribute (the
`querySelectorAll('outline[xmlUrl]')` match set) while maintaining the
stack of `text` attributes of the open elements. -/
def walkTags : List Str → List (Option Str) → List ParsedFeed
  | [], _ => []
  | t :: rest, stack =>
      if isCloseTag t then walkTags rest stack.tail
      else
        let matched : List ParsedFeed :=
          if tagName t = "outline".data ∧ (getAttr t "xmlUrl".data).isSome then
            [mkParsedFeed t stack]
          else []
        if isSelfClosing t then matched ++ walkTags rest stack
        else matched ++ walkTags rest (getAttr t "text".data :: stack)

/-- `parseOPMLFile` on a document text: the feeds of every
`outline[xmlUrl]` element in document order. -/
def parseOPML (doc : Str) : List ParsedFeed :=
  walkTags (lexTags doc none) []

/-- Characters that are XML markup in the positions `generateOPML`
interpolates into (attribute values between double quotes, or the
wrapper structure around them). -/
def safeChar (c : Char) : Prop :=
  c ≠ '<' ∧ c ≠ '>' ∧ c ≠ '"' ∧ c ≠ '&'

instance (c : Char) : Decidable (safeChar c) := by
  unfold safeChar; infer_instance

/-- A string free of XML metacharacters. -/
def safeStr (s : Str) : Prop := ∀ c ∈ s, safeChar c

instance (s : Str) : Decidable (safeStr s) := by
  unfold safeStr; exact List.decidableBAll _ s

/-- Every string `generateOPML` interpolates for this feed is free of XML
metacharacters. -/
def safeFeed (f : OPMLFeedIn) : Prop :=
  safeStr f.title ∧ safeStr f.url ∧ safeStr (f.htmlUrl.getD []) ∧ safeStr (catOf f)

instance (f : OPMLFeedIn) : Decidable (safeFeed f) := by
  unfold safeFeed; infer_instance

/-- The `(title, url)` projection the round-trip claim compares. -/
def projTU (p : ParsedFeed) : Option Str × Option Str := (p.title, p.url)

/-- The same projection on an exported feed. -/
def projFeedTU (f : OPMLFeedIn) : Option Str × Option Str := (some f.title, some f.url)

/-! Tag contents produced by the generator, used to state the
intermediate lexing and walking lemmas. -/

/-- Contents of a generated per-feed outline tag (between `<` and `>`). -/
def outlineContent (f : OPMLFeedIn) : Str :=
  "outline type=\"rss\" text=\"".data ++
    (f.title ++ ("\" title=\"".data ++
      (f.title ++ ("\" xmlUrl=\"".data ++
        (f.url ++ ("\" htmlUrl=\"".data ++
          (f.htmlUrl.getD [] ++ "\" /".data)))))))

/-- Contents of a generated category-wrapper opening tag. -/
def catOpenContent (c : Str) : Str :=
  "outline text=\"".data ++ (c ++ "\"".data)

/-- The parsed feed recovered from a generated outline whose values are
quote-free, under a parent with `text` attribute `parent`. -/
def parsedOf (f : OPMLFeedIn) (parent : Option Str) : ParsedFeed :=
  { title := some f.title, url := some f.url,
    htmlUrl := some (f.htmlUrl.getD []),
    category := jsOrStr parent nonCategorise,
    selected := true }

/-! ## Theorems -/

/-! ### C1 -/

/-- C1: in every database state reachable by inserting collections (the
AFTER INSERT trigger firing after each insertion), the owner of every
collection row appears in `membre_collection` for that collection with
role `'proprietaire'` and all five capability flags `TRUE`; and every
collection created through the frontend `addCollection` is appended with
exactly one member, of role `'creator'`. -/
theorem C1_auto_membership :
    (∀ st, ReachColl st → OwnerIsMember st) ∧
    (∀ (collections : List Collection) (input : CollectionInput) (now : Nat),
      ∃ c, addCollection collections input now = collections ++ [c] ∧
        c.members.length = 1 ∧ ∀ m ∈ c.members, m.role = "creator") := by
  constructor
  · intro st h
    induction h with
    | init => intro c hc; simp at hc
    | step row _ ih =>
      intro c hc
      simp only [insertCollection, List.mem_append, List.mem_singleton] at hc
      rcases hc with hc | hc
      · obtain ⟨m, hm, hprops⟩ := ih c hc
        exact ⟨m, by simp [insertCollection, List.mem_append, hm], hprops⟩
      · subst hc
        refine ⟨ownerMembre c.id c.proprietaire_id, ?_, ?_⟩
        · simp [insertCollection]
        · simp [ownerMembre]
  · intro collections input now
    refine ⟨_, rfl, rfl, ?_⟩
    intro m hm
    simp only [List.mem_singleton] at hm
    subst hm
    rfl

/-- Witness for C1 at a concrete insertion and a concrete frontend call. -/
theorem C1_auto_membership_witness :
    OwnerIsMember (insertCollection ⟨[], []⟩
      { id := 7, nom := "tech", description := none, est_partagee := true,
        proprietaire_id := 3, cree_le := 0, modifie_le := 0 }) ∧
    (∃ c, addCollection [] { name := "Veille", emoji := "🚀" } 42 = [] ++ [c] ∧
      c.members.length = 1 ∧ ∀ m ∈ c.members, m.role = "creator") :=
  ⟨C1_auto_membership.1 _ (.step _ .init),
   C1_auto_membership.2 [] { name := "Veille", emoji := "🚀" } 42⟩

/-! ### C2 -/

/-- Each cascade round only removes comments. -/
theorem cascadeStep_subset (cs : List CommentaireRow) : cascadeStep cs ⊆ cs :=
  fun _ hx => (List.mem_filter.1 hx).1

/-- Iterated cascade rounds only remove comments. -/
theorem cascadeIter_subset (n : Nat) (cs : List CommentaireRow) :
    cascadeIter n cs ⊆ cs := by
  induction n generalizing cs with
  | zero => exact fun x hx => hx
  | succ n ih =>
    intro x hx
    exact cascadeStep_subset cs (ih (cascadeStep cs) hx)

/-- C2: deleting a collection row removes every `membre_collection`,
`collection_flux`, `commentaire_article` and `message_collection` row
referencing it (all `ON DELETE CASCADE`), keeps the unrelated rows of the
three purely collection-keyed tables, and leaves `flux_rss` and `article`
unchanged. -/
theorem C2_cascade_delete (st : DBState) (cid : Nat) :
    (∀ c ∈ (deleteCollectionRow st cid).collections, c.id ≠ cid) ∧
    (∀ m ∈ (deleteCollectionRow st cid).membres, m.collection_id ≠ cid) ∧
    (∀ cf ∈ (deleteCollectionRow st cid).collection_flux, cf.collection_id ≠ cid) ∧
    (∀ co ∈ (deleteCollectionRow st cid).commentaires, co.collection_id ≠ cid) ∧
    (∀ ms ∈ (deleteCollectionRow st cid).messages, ms.collection_id ≠ cid) ∧
    (∀ m ∈ st.membres, m.collection_id ≠ cid →
      m ∈ (deleteCollectionRow st cid).membres) ∧
    (∀ cf ∈ st.collection_flux, cf.collection_id ≠ cid →
      cf ∈ (deleteCollectionRow st cid).collection_flux) ∧
    (∀ ms ∈ st.messages, ms.collection_id ≠ cid →
      ms ∈ (deleteCollectionRow st cid).messages) ∧
    (deleteCollectionRow st cid).flux = st.flux ∧
    (deleteCollectionRow st cid).articles = st.articles := by
  refine ⟨?_, ?_, ?_, ?_, ?_, ?_, ?_, ?_, rfl, rfl⟩
  · intro c hc
    simp only [deleteCollectionRow, List.mem_filter, decide_eq_true_eq] at hc
    exact hc.2
  · intro m hm
    simp only [deleteCollectionRow, List.mem_filter, decide_eq_true_eq] at hm
    exact hm.2
  · intro cf hcf
    simp only [deleteCollectionRow, List.mem_filter, decide_eq_true_eq] at hcf
    exact hcf.2
  · intro co hco
    have hdir : co ∈ st.commentaires.filter (fun c => c.collection_id ≠ cid) :=
      cascadeIter_subset _ _ hco
    simp only [List.mem_filter, decide_eq_true_eq] at hdir
    exact hdir.2
  · intro ms hms
    simp only [deleteCollectionRow, List.mem_filter, decide_eq_true_eq] at hms
    exact hms.2
  · intro m hm hne
    simp [deleteCollectionRow, List.mem_filter, hm, hne]
  · intro cf hcf hne
    simp [deleteCollectionRow, List.mem_filter, hcf, hne]
  · intro ms hms hne
    simp [deleteCollectionRow, List.mem_filter, hms, hne]

/-- Witness for C2 at a concrete two-collection database. -/
theorem C2_cascade_delete_witness :
    (∀ m ∈ ({ collections := [], membres := [defaultMembre 1 4, defaultMembre 2 4],
              collection_flux := [], commentaires := [], messages := [],
              flux := [], articles := [] } : DBState).membres,
      m.collection_id ≠ 1 →
      m ∈ (deleteCollectionRow
            { collections := [], membres := [defaultMembre 1 4, defaultMembre 2 4],
              collection_flux := [], commentaires := [], messages := [],
              flux := [], articles := [] } 1).membres) ∧
    defaultMembre 2 4 ∈ (deleteCollectionRow
      { collections := [], membres := [defaultMembre 1 4, defaultMembre 2 4],
        collection_flux := [], commentaires := [], messages := [],
        flux := [], articles := [] } 1).membres := by
  have h := (C2_cascade_delete
    { collections := [], membres := [defaultMembre 1 4, defaultMembre 2 4],
      collection_flux := [], commentaires := [], messages := [],
      flux := [], articles := [] } 1).2.2.2.2.2.1
  exact ⟨h, h (defaultMembre 2 4) (by decide) (by decide)⟩

/-! ### C3 -/

/-- C3: a `membre_collection` row inserted with the columns left to their
defaults carries role `'membre'` and the flag vector
`(TRUE, TRUE, TRUE, FALSE, FALSE)`, and every table reachable under the
`UNIQUE(collection_id, utilisateur_id)` constraint holds at most one row
per key pair. -/
theorem C3_membre_defaults_unique :
    (∀ cid uid,
      (defaultMembre cid uid).collection_id = cid ∧
      (defaultMembre cid uid).utilisateur_id = uid ∧
      (defaultMembre cid uid).role = .membre ∧
      (defaultMembre cid uid).peut_ajouter_flux = true ∧
      (defaultMembre cid uid).peut_lire = true ∧
      (defaultMembre cid uid).peut_commenter = true ∧
      (defaultMembre cid uid).peut_modifier = false ∧
      (defaultMembre cid uid).peut_supprimer = false) ∧
    (∀ t, ReachMembres t → MembreKeysDistinct t) := by
  constructor
  · intro cid uid
    exact ⟨rfl, rfl, rfl, rfl, rfl, rfl, rfl, rfl⟩
  · intro t h
    induction h with
    | init => exact List.Pairwise.nil
    | step r huniq _ ih =>
      rw [MembreKeysDistinct, List.pairwise_append]
      exact ⟨ih, List.pairwise_singleton _ _,
        fun a ha b hb => by
          simp only [List.mem_singleton] at hb
          subst hb
          exact huniq a ha⟩

/-- Witness for C3 on a two-insert table. -/
theorem C3_membre_defaults_unique_witness :
    MembreKeysDistinct ([] ++ [defaultMembre 1 2] ++ [defaultMembre 1 3]) :=
  C3_membre_defaults_unique.2 _
    (.step _ (by decide) (.step _ (by decide) .init))

/-! ### C4 (corrected) -/

/-- C4 counterexample: the schema defines a trigger function other than
the auto-membership one, namely `update_modifie_le_column`, so "no
trigger function other than the auto-membership one exists" is false. -/
theorem C4_counterexample :
    TriggerFunction.update_modifie_le_column ∈ schemaTriggerFunctions ∧
    TriggerFunction.update_modifie_le_column ≠
      TriggerFunction.ajouter_proprietaire_comme_membre ∧
    schemaTriggerFunctions.length ≠ 1 := by decide

/-- C4 (amended): the schema defines exactly two trigger functions — the
timestamp refresher `update_modifie_le_column`, which changes nothing but
`modifie_le`, and the auto-membership function; the only trigger firing
on INSERT (hence the only trigger-driven row insertion) is the
auto-membership one, all other triggers being BEFORE UPDATE timestamp
refreshers. -/
theorem C4_trigger_inventory :
    schemaTriggerFunctions =
      [.update_modifie_le_column, .ajouter_proprietaire_comme_membre] ∧
    schemaTriggerFunctions.length = 2 ∧
    (∀ t ∈ schemaTriggers, t.2.1 = TriggerEvent.afterInsert →
      t.2.2 = TriggerFunction.ajouter_proprietaire_comme_membre) ∧
    (∀ t ∈ schemaTriggers, t.2.2 = TriggerFunction.update_modifie_le_column →
      t.2.1 = TriggerEvent.beforeUpdate) ∧
    (∀ (r : CollectionRow) (now : Nat),
      (updateModifieLeCollection r now).modifie_le = now ∧
      (updateModifieLeCollection r now).id = r.id ∧
      (updateModifieLeCollection r now).nom = r.nom ∧
      (updateModifieLeCollection r now).description = r.description ∧
      (updateModifieLeCollection r now).est_partagee = r.est_partagee ∧
      (updateModifieLeCollection r now).proprietaire_id = r.proprietaire_id ∧
      (updateModifieLeCollection r now).cree_le = r.cree_le) := by
  refine ⟨rfl, rfl, by decide, by decide, ?_⟩
  intro r now
  exact ⟨rfl, rfl, rfl, rfl, rfl, rfl, rfl⟩

/-- Witness for C4's amended statement at one of the script's timestamp
triggers. -/
theorem C4_trigger_inventory_witness :
    (("utilisateur", TriggerEvent.beforeUpdate,
        TriggerFunction.update_modifie_le_column) :
      String × TriggerEvent × TriggerFunction).2.1 = TriggerEvent.beforeUpdate :=
  C4_trigger_inventory.2.2.2.1
    ("utilisateur", TriggerEvent.beforeUpdate,
      TriggerFunction.update_modifie_le_column) (by decide) rfl

/-! ### C5 (corrected) -/

/-- A concrete database for C5: two users, one article, one feed, and a
status row of user 1 alone on the article. -/
def c5State : ViewState :=
  { utilisateurs := [1, 2],
    articles := [{ id := 1, flux_id := 1, titre := "a", lien := "l", guid := "g" }],
    flux := [{ id := 1, nom := "f", url := "u", description := none,
               frequence_maj_heures := 24, est_actif := true }],
    statuts := [{ utilisateur_id := 1, article_id := 1, est_lu := true,
                  est_favori := false, lu_le := some 5, mis_en_favori_le := none }] }

/-- C5 counterexample: user 2 has no status row on article 1, yet no row
of `vue_articles_utilisateur` reports the article for user 2 (with
`utilisateur_id` 2 or NULL) with `est_lu = FALSE` — the LEFT JOIN matches
on the article alone, so user 1's row is the only one emitted. -/
theorem C5_counterexample :
    (2 ∈ c5State.utilisateurs) ∧
    (∃ a ∈ c5State.articles, a.id = 1) ∧
    (∀ s ∈ c5State.statuts, ¬(s.utilisateur_id = 2 ∧ s.article_id = 1)) ∧
    ¬(∃ r ∈ vueArticlesUtilisateur c5State,
        r.id = 1 ∧ (r.utilisateur_id = some 2 ∨ r.utilisateur_id = none) ∧
        r.est_lu = false ∧ r.est_favori = false) := by decide

/-- C5 (amended): the `(utilisateur_id, article_id)` key is unique in
every table reachable under the constraint, and an article with no
status row from any user appears in `vue_articles_utilisateur` as a
single NULL-joined row whose `COALESCE` columns read `FALSE`/`FALSE`;
for a user without a status row on an article that other users have
marked, the view emits no row at all (the LEFT JOIN matches on the
article alone). -/
theorem C5_status_defaults :
    (∀ t, ReachStatuts t → StatutKeysDistinct t) ∧
    (∀ (st : ViewState) (a : ArticleRow) (f : FluxRow),
      a ∈ st.articles → f ∈ st.flux → f.id = a.flux_id →
      st.statuts.filter (fun s => s.article_id = a.id) = [] →
      vueRowNull a f ∈ vueArticlesUtilisateur st ∧
      (vueRowNull a f).est_lu = false ∧
      (vueRowNull a f).est_favori = false ∧
      (vueRowNull a f).utilisateur_id = none) ∧
    (∀ (st : ViewState) (u : Nat) (a : ArticleRow),
      a ∈ st.articles →
      ¬(st.statuts.filter (fun s => s.article_id = a.id)).isEmpty →
      (∀ s ∈ st.statuts, s.article_id = a.id → s.utilisateur_id ≠ u) →
      ∀ r ∈ vueArticlesUtilisateur st, r.id = a.id →
        (∀ b ∈ st.articles, b.id = a.id → b = a) →
        r.utilisateur_id ≠ some u ∧ r.utilisateur_id ≠ none) := by
  refine ⟨?_, ?_, ?_⟩
  · intro t h
    induction h with
    | init => exact List.Pairwise.nil
    | step r huniq _ ih =>
      rw [StatutKeysDistinct, List.pairwise_append]
      exact ⟨ih, List.pairwise_singleton _ _,
        fun a ha b hb => by
          simp only [List.mem_singleton] at hb
          subst hb
          exact huniq a ha⟩
  · intro st a f ha hf hid hnone
    refine ⟨?_, rfl, rfl, rfl⟩
    rw [vueArticlesUtilisateur, List.mem_flatMap]
    refine ⟨a, ha, ?_⟩
    rw [List.mem_flatMap]
    refine ⟨f, ?_, ?_⟩
    · rw [List.mem_filter]
      exact ⟨hf, by simp [hid]⟩
    · simp [hnone]
  · intro st u a ha hsome hnou r hr hrid huniqa
    rw [vueArticlesUtilisateur, List.mem_flatMap] at hr
    obtain ⟨a', ha', hr⟩ := hr
    rw [List.mem_flatMap] at hr
    obtain ⟨f', hf', hr⟩ := hr
    by_cases hemp : (st.statuts.filter (fun s => s.article_id = a'.id)).isEmpty
    · rw [if_pos hemp, List.mem_singleton] at hr
      subst hr
      have haa : a' = a := huniqa a' ha' hrid
      subst haa
      exact absurd hemp hsome
    · rw [if_neg hemp, List.mem_map] at hr
      obtain ⟨s, hs, hrs⟩ := hr
      rw [List.mem_filter] at hs
      have hsa : s.article_id = a'.id := by simpa using hs.2
      subst hrs
      have haa : a' = a := huniqa a' ha' hrid
      subst haa
      refine ⟨?_, by simp [vueRowOf]⟩
      intro hcontra
      have hsu : s.utilisateur_id = u := by simpa [vueRowOf] using hcontra
      exact hnou s hs.1 hsa hsu

/-- Witness for C5's amended statement at a concrete statusless article. -/
theorem C5_status_defaults_witness :
    StatutKeysDistinct [] ∧
    vueRowNull { id := 3, flux_id := 1, titre := "t", lien := "l", guid := "g" }
        { id := 1, nom := "f", url := "u", description := none,
          frequence_maj_heures := 24, est_actif := true }
      ∈ vueArticlesUtilisateur
        { utilisateurs := [1],
          articles := [{ id := 3, flux_id := 1, titre := "t", lien := "l", guid := "g" }],
          flux := [{ id := 1, nom := "f", url := "u", description := none,
                     frequence_maj_heures := 24, est_actif := true }],
          statuts := [] } :=
  ⟨C5_status_defaults.1 [] .init,
   (C5_status_defaults.2.1 _ _ _ (by decide) (by decide) (by decide) (by decide)).1⟩

/-! ### C7 -/

/-- C7: `markArticleAsRead` clears `unread` exactly on the matching
articles, touches no other field and no other article, and is
idempotent; `toggleFavorite` applied twice restores the article list. -/
theorem C7_read_favorite_ops (articles : List Article) (articleId : Nat) :
    List.Forall₂ (fun a b =>
        b.id = a.id ∧ b.favorite = a.favorite ∧ b.title = a.title ∧
        b.excerpt = a.excerpt ∧ b.source = a.source ∧ b.time = a.time ∧
        (a.id = articleId → b.unread = false) ∧
        (a.id ≠ articleId → b.unread = a.unread))
      articles (markArticleAsRead articles articleId) ∧
    markArticleAsRead (markArticleAsRead articles articleId) articleId
      = markArticleAsRead articles articleId ∧
    toggleFavorite (toggleFavorite articles articleId) articleId = articles := by
  refine ⟨?_, ?_, ?_⟩
  · induction articles with
    | nil => exact List.Forall₂.nil
    | cons a rest ih =>
      rw [markArticleAsRead, List.map_cons]
      refine List.Forall₂.cons ?_ ih
      by_cases h : a.id = articleId
      · simp [h]
      · simp [h]
  · induction articles with
    | nil => rfl
    | cons a rest ih =>
      simp only [markArticleAsRead, List.map_cons, List.map_map] at ih ⊢
      congr 1
      by_cases h : a.id = articleId <;> simp [h]
  · induction articles with
    | nil => rfl
    | cons a rest ih =>
      simp only [toggleFavorite, List.map_cons, List.map_map] at ih ⊢
      congr 1
      cases a with
      | mk i u f t e so tm => by_cases h : i = articleId <;> simp [h]

/-- Witness for C7 at a concrete two-article list. -/
theorem C7_read_favorite_ops_witness :
    toggleFavorite (toggleFavorite
      [{ id := 1, unread := true, favorite := false, title := "t",
         excerpt := "e", source := "s", time := "2h" },
       { id := 2, unread := false, favorite := true, title := "u",
         excerpt := "f", source := "r", time := "1h" }] 1) 1
    = [{ id := 1, unread := true, favorite := false, title := "t",
         excerpt := "e", source := "s", time := "2h" },
       { id := 2, unread := false, favorite := true, title := "u",
         excerpt := "f", source := "r", time := "1h" }] :=
  (C7_read_favorite_ops _ 1).2.2

/-! ### C8 -/

/-- Per-member shape of `updateMemberPermissions`: the matching member
gets exactly the new permission list, every other member and every other
field survives. -/
theorem memberMap_spec (members : List Member) (memberId : Nat)
    (perms : List String) :
    List.Forall₂ (fun m m' =>
        (m.id ≠ memberId → m' = m) ∧
        (m.id = memberId → m'.id = m.id ∧ m'.name = m.name ∧ m'.email = m.email ∧
          m'.initials = m.initials ∧ m'.role = m.role ∧
          m'.permissions = some perms))
      members
      (members.map fun member =>
        if member.id = memberId then { member with permissions := some perms }
        else member) := by
  induction members with
  | nil => exact List.Forall₂.nil
  | cons m rest ih =>
    rw [List.map_cons]
    refine List.Forall₂.cons ?_ ih
    by_cases h : m.id = memberId
    · simp [h]
    · simp [h]

/-- Per-collection shape of `updateMemberPermissions`: only the matching
collection's matching member changes, and only in `permissions`. -/
theorem updateMemberPermissions_spec (collections : List Collection)
    (cid memberId : Nat) (perms : List String) :
    List.Forall₂ (fun col col' =>
        (col.id ≠ cid → col' = col) ∧
        (col.id = cid →
          col'.id = col.id ∧ col'.name = col.name ∧ col'.emoji = col.emoji ∧
          col'.unreadCount = col.unreadCount ∧ col'.feeds = col.feeds ∧
          col'.stats = col.stats ∧
          List.Forall₂ (fun m m' =>
              (m.id ≠ memberId → m' = m) ∧
              (m.id = memberId → m'.id = m.id ∧ m'.name = m.name ∧
                m'.email = m.email ∧ m'.initials = m.initials ∧
                m'.role = m.role ∧ m'.permissions = some perms))
            col.members col'.members))
      collections (updateMemberPermissions collections cid memberId perms) := by
  induction collections with
  | nil => exact List.Forall₂.nil
  | cons col rest ih =>
    rw [updateMemberPermissions, List.map_cons]
    refine List.Forall₂.cons ?_ ih
    by_cases h : col.id = cid
    · refine ⟨fun hne => absurd h hne, fun _ => ?_⟩
      rw [if_pos h]
      exact ⟨rfl, rfl, rfl, rfl, rfl, rfl, memberMap_spec col.members memberId perms⟩
    · exact ⟨fun _ => by rw [if_neg h], fun heq => absurd heq h⟩

/-- C8: `handlePermissionChange` leaves the state entirely unchanged when
the targeted member is the creator (or does not exist); for any other
member it installs exactly the permission list with the permission
appended (checked) or filtered out (unchecked), changing nothing else in
any collection. -/
theorem C8_creator_permissions_immutable (collections : List Collection)
    (collection : Collection) (memberId : Nat) (permission : String)
    (checked : Bool) :
    (∀ member, collection.members.find? (fun m => m.id = memberId) = some member →
      member.role = "creator" →
      handlePermissionChange collections collection memberId permission checked
        = collections) ∧
    (collection.members.find? (fun m => m.id = memberId) = none →
      handlePermissionChange collections collection memberId permission checked
        = collections) ∧
    (∀ member, collection.members.find? (fun m => m.id = memberId) = some member →
      member.role ≠ "creator" →
      List.Forall₂ (fun col col' =>
          (col.id ≠ collection.id → col' = col) ∧
          (col.id = collection.id →
            col'.id = col.id ∧ col'.name = col.name ∧ col'.emoji = col.emoji ∧
            col'.unreadCount = col.unreadCount ∧ col'.feeds = col.feeds ∧
            col'.stats = col.stats ∧
            List.Forall₂ (fun m m' =>
                (m.id ≠ memberId → m' = m) ∧
                (m.id = memberId → m'.id = m.id ∧ m'.name = m.name ∧
                  m'.email = m.email ∧ m'.initials = m.initials ∧
                  m'.role = m.role ∧
                  m'.permissions = some
                    (if checked then member.permissions.getD [] ++ [permission]
                     else (member.permissions.getD []).filter
                       (fun p => p ≠ permission))))
              col.members col'.members))
        collections
        (handlePermissionChange collections collection memberId permission checked)) := by
  refine ⟨?_, ?_, ?_⟩
  · intro member hfind hrole
    rw [handlePermissionChange, hfind]
    simp [hrole]
  · intro hfind
    rw [handlePermissionChange, hfind]
  · intro member hfind hrole
    rw [handlePermissionChange, hfind]
    simp only [ne_eq, hrole, not_false_eq_true, if_true, ite_not]
    by_cases hc : checked
    · simpa [hc] using
        updateMemberPermissions_spec collections collection.id memberId
          (member.permissions.getD [] ++ [permission])
    · simpa [hc] using
        updateMemberPermissions_spec collections collection.id memberId
          ((member.permissions.getD []).filter (fun p => p ≠ permission))

/-- A concrete collection for the C8 and C9 witnesses. -/
def wCollection : Collection :=
  { id := 10, name := "Tech", emoji := "💻", unreadCount := 0,
    feeds := [],
    members := [creatorMember,
      { id := 2, name := "bob", email := some "bob@x.y", initials := "BO",
        role := "reader", permissions := some ["read"] }],
    stats := { totalArticles := 0, weeklyArticles := 0, activeFeeds := 0,
               activeMembers := 2 } }

/-- Witness for C8: the creator of a concrete collection is untouched. -/
theorem C8_creator_permissions_immutable_witness :
    handlePermissionChange [wCollection] wCollection 1 "edit" true
      = [wCollection] :=
  (C8_creator_permissions_immutable [wCollection] wCollection 1 "edit" true).1
    creatorMember (by decide) rfl

/-! ### C9 -/

/-- Appending a feed with `active = false` does not change the active
count. -/
theorem countActiveFeeds_append_inactive (feeds : List Feed) (f : Feed)
    (h : f.active = false) :
    countActiveFeeds (feeds ++ [f]) = countActiveFeeds feeds := by
  rw [countActiveFeeds, countActiveFeeds, List.filter_append]
  simp [h]

/-- C9: `addFeedToCollection` appends the feed and bumps
`stats.activeFeeds` by exactly one even for an inactive feed — so the
counter drifts from the recomputed count — while `handleDeleteFeed` and
`handleToggleFeedStatus` store `stats.activeFeeds` as exactly the count
of active feeds. -/
theorem C9_activeFeeds_increment_vs_recount (collections : List Collection)
    (collection : Collection) (feed : Feed) (now feedId : Nat) :
    List.Forall₂ (fun col col' =>
        (col.id ≠ collection.id → col' = col) ∧
        (col.id = collection.id →
          col'.feeds = col.feeds ++ [{ feed with id := now }] ∧
          col'.stats.activeFeeds = col.stats.activeFeeds + 1 ∧
          col'.stats.totalArticles = col.stats.totalArticles ∧
          col'.stats.weeklyArticles = col.stats.weeklyArticles ∧
          col'.stats.activeMembers = col.stats.activeMembers ∧
          col'.id = col.id ∧ col'.members = col.members) ∧
        (col.id = collection.id → feed.active = false →
          col.stats.activeFeeds = countActiveFeeds col.feeds →
          col'.stats.activeFeeds ≠ countActiveFeeds col'.feeds))
      collections (addFeedToCollection collections collection.id feed now) ∧
    (∀ col' ∈ handleDeleteFeed collections collection feedId,
      col'.id = collection.id →
      col'.stats.activeFeeds = countActiveFeeds col'.feeds) ∧
    (∀ col' ∈ handleToggleFeedStatus collections collection feedId,
      col'.id = collection.id →
      col'.stats.activeFeeds = countActiveFeeds col'.feeds) := by
  refine ⟨?_, ?_, ?_⟩
  · induction collections with
    | nil => exact List.Forall₂.nil
    | cons col rest ih =>
      rw [addFeedToCollection, List.map_cons]
      refine List.Forall₂.cons ?_ ih
      by_cases h : col.id = collection.id
      · rw [if_pos h]
        refine ⟨fun hne => absurd h hne,
          fun _ => ⟨rfl, rfl, rfl, rfl, rfl, rfl, rfl⟩,
          fun _ hact heq => ?_⟩
        have hcount : countActiveFeeds (col.feeds ++ [{ feed with id := now }])
            = countActiveFeeds col.feeds :=
          countActiveFeeds_append_inactive col.feeds { feed with id := now } hact
        simp only [hcount]
        rw [← heq]
        omega
      · rw [if_neg h]
        exact ⟨fun _ => rfl, fun heq => absurd heq h, fun heq => absurd heq h⟩
  · intro col' hcol' hid
    rw [handleDeleteFeed, updateCollection, List.mem_map] at hcol'
    obtain ⟨col, _, hcol⟩ := hcol'
    by_cases h : col.id = collection.id
    · rw [if_pos h] at hcol
      subst hcol
      rfl
    · rw [if_neg h] at hcol
      subst hcol
      exact absurd hid h
  · intro col' hcol' hid
    rw [handleToggleFeedStatus, updateCollection, List.mem_map] at hcol'
    obtain ⟨col, _, hcol⟩ := hcol'
    by_cases h : col.id = collection.id
    · rw [if_pos h] at hcol
      subst hcol
      rfl
    · rw [if_neg h] at hcol
      subst hcol
      exact absurd hid h

/-- Witness for C9: after adding an inactive feed to a concrete
collection whose counter was accurate, the counter and the recount
disagree, and `handleDeleteFeed` leaves an accurate counter. -/
theorem C9_activeFeeds_increment_vs_recount_witness :
    (∀ col' ∈ handleDeleteFeed [wCollection] wCollection 5,
      col'.id = wCollection.id →
      col'.stats.activeFeeds = countActiveFeeds col'.feeds) ∧
    (∀ col' ∈ handleDeleteFeed [wCollection] wCollection 5,
      col'.id = wCollection.id →
      col'.stats.activeFeeds = countActiveFeeds col'.feeds) ∧
    ([wCollection].map (fun c => c.stats.activeFeeds)
      = [countActiveFeeds wCollection.feeds]) :=
  ⟨(C9_activeFeeds_increment_vs_recount [wCollection] wCollection
      { id := 0, name := "dead", url := "u", tags := [], active := false } 99 5).2.1,
   (C9_activeFeeds_increment_vs_recount [wCollection] wCollection
      { id := 0, name := "dead", url := "u", tags := [], active := false } 99 5).2.1,
   by decide⟩

/-! ### C10 -/

/-- C10: `deleteCollection` removes exactly the collections carrying the
deleted id, keeps the rest in order, and — when the active collection
carried that id — resets the active collection to the head of the
pre-deletion list, which is the deleted collection itself whenever it was
first. -/
theorem C10_delete_collection (st : AppState) (collectionId : Nat) :
    (∀ c, c ∈ (deleteCollection st collectionId).collections ↔
      (c ∈ st.collections ∧ c.id ≠ collectionId)) ∧
    (deleteCollection st collectionId).collections.Sublist st.collections ∧
    (∀ ac, st.activeCollection = some ac → ac.id = collectionId →
      (deleteCollection st collectionId).activeCollection = st.collections.head?) ∧
    (∀ ac, st.activeCollection = some ac → ac.id ≠ collectionId →
      (deleteCollection st collectionId).activeCollection = some ac) ∧
    (∀ ac, st.activeCollection = some ac → ac.id = collectionId →
      st.collections.head? = some ac →
      (deleteCollection st collectionId).activeCollection = some ac ∧
      ac ∉ (deleteCollection st collectionId).collections) := by
  refine ⟨?_, ?_, ?_, ?_, ?_⟩
  · intro c
    simp [deleteCollection, List.mem_filter]
  · exact List.filter_sublist _
  · intro ac hac hid
    simp only [deleteCollection, hac]
    rw [if_pos hid]
  · intro ac hac hid
    simp only [deleteCollection, hac]
    rw [if_neg hid]
  · intro ac hac hid hhead
    refine ⟨?_, ?_⟩
    · simp only [deleteCollection, hac]
      rw [if_pos hid, hhead]
    · simp only [deleteCollection, List.mem_filter]
      intro hcontra
      exact absurd hid (by simpa using hcontra.2)

/-- Witness for C10: deleting the first collection while it is active
makes the deleted collection the new active collection. -/
theorem C10_delete_collection_witness :
    (deleteCollection { collections := [wCollection], activeCollection := some wCollection }
      10).activeCollection = some wCollection ∧
    wCollection ∉ (deleteCollection
      { collections := [wCollection], activeCollection := some wCollection }
      10).collections :=
  C10_delete_collection
    { collections := [wCollection], activeCollection := some wCollection } 10
    |>.2.2.2.2 wCollection rfl rfl rfl

/-! ### C6: lexer lemmas -/

/-- A metacharacter-free string contains no `<`. -/
theorem safeStr_not_lt {s : Str} (h : safeStr s) : '<' ∉ s :=
  fun hc => (h _ hc).1 rfl

/-- A metacharacter-free string contains no `>`. -/
theorem safeStr_not_gt {s : Str} (h : safeStr s) : '>' ∉ s :=
  fun hc => (h _ hc).2.1 rfl

/-- A metacharacter-free string contains no double quote. -/
theorem safeStr_not_quote {s : Str} (h : safeStr s) : '"' ∉ s :=
  fun hc => (h _ hc).2.2.1 rfl

/-- Text free of `<` is skipped by the tag tokeniser. -/
theorem lexTags_skip (s X : Str) (h : '<' ∉ s) :
    lexTags (s ++ X) none = lexTags X none := by
  induction s with
  | nil => rfl
  | cons c rest ih =>
    simp only [List.mem_cons, not_or] at h
    have h1 : ¬ c = '<' := fun hc => h.1 hc.symm
    rw [List.cons_append,
      show lexTags (c :: (rest ++ X)) none
        = if c = '<' then lexTags (rest ++ X) (some [])
          else lexTags (rest ++ X) none from rfl,
      if_neg h1]
    exact ih h.2

/-- Inside a tag, characters other than `>` are accumulated. -/
theorem lexTags_tag_pass (t X acc : Str) (h : '>' ∉ t) :
    lexTags (t ++ X) (some acc) = lexTags X (some (acc ++ t)) := by
  induction t generalizing acc with
  | nil => simp
  | cons c rest ih =>
    simp only [List.mem_cons, not_or] at h
    have h1 : ¬ c = '>' := fun hc => h.1 hc.symm
    rw [List.cons_append,
      show lexTags (c :: (rest ++ X)) (some acc)
        = if c = '>' then acc :: lexTags (rest ++ X) none
          else lexTags (rest ++ X) (some (acc ++ [c])) from rfl,
      if_neg h1, ih _ h.2]
    simp

/-- A `>` closes the current tag and emits its contents. -/
theorem lexTags_emit (acc X : Str) :
    lexTags ('>' :: X) (some acc) = acc :: lexTags X none := rfl

/-- Tokenising one generated feed outline yields its tag contents. -/
theorem lexTags_feedOutline (f : OPMLFeedIn) (X : Str)
    (hT : '>' ∉ f.title) (hU : '>' ∉ f.url) (hH : '>' ∉ f.htmlUrl.getD []) :
    lexTags (feedOutline f ++ X) none = outlineContent f :: lexTags X none := by
  have h1 : feedOutline f ++ X
      = "\n      <".data ++ ("outline type=\"rss\" text=\"".data ++
        (f.title ++ (ocLit2 ++ (f.title ++ (ocLit3 ++ (f.url ++ (ocLit4 ++
          (f.htmlUrl.getD [] ++ ("\" /".data ++ ('>' :: X)))))))))) := by
    simp only [feedOutline, ocLit1, ocLit2, ocLit3, ocLit4, ocLit5,
      List.append_assoc]
    rfl
  rw [h1]
  rw [show ∀ Y : Str, lexTags ("\n      <".data ++
        ("outline type=\"rss\" text=\"".data ++ Y)) none
      = lexTags Y (some ("outline type=\"rss\" text=\"".data)) from fun Y => rfl]
  rw [lexTags_tag_pass _ _ _ hT,
      lexTags_tag_pass _ _ _ (by decide : '>' ∉ ocLit2),
      lexTags_tag_pass _ _ _ hT,
      lexTags_tag_pass _ _ _ (by decide : '>' ∉ ocLit3),
      lexTags_tag_pass _ _ _ hU,
      lexTags_tag_pass _ _ _ (by decide : '>' ∉ ocLit4),
      lexTags_tag_pass _ _ _ hH,
      lexTags_tag_pass _ _ _ (by decide : ('>' : Char) ∉ "\" /".data),
      lexTags_emit]
  simp only [outlineContent, ocLit2, ocLit3, ocLit4, List.append_assoc]

/-- Tokenising the flat export body. -/
theorem lexTags_flatBody (feeds : List OPMLFeedIn) (X : Str)
    (h : ∀ f ∈ feeds, safeFeed f) :
    lexTags (flatBody feeds ++ X) none
      = feeds.map outlineContent ++ lexTags X none := by
  induction feeds with
  | nil => rfl
  | cons f rest ih =>
    rw [flatBody, List.flatMap_cons, List.append_assoc]
    have hf := h f (List.mem_cons_self f rest)
    rw [lexTags_feedOutline f _ (safeStr_not_gt hf.1) (safeStr_not_gt hf.2.1)
      (safeStr_not_gt hf.2.2.1)]
    show outlineContent f :: lexTags (flatBody rest ++ X) none
      = List.map outlineContent (f :: rest) ++ lexTags X none
    rw [ih (fun g hg => h g (List.mem_cons_of_mem f hg)), List.map_cons,
      List.cons_append]

/-- Tokenising the document header up to the first date insertion. -/
theorem lexTags_header1 (Y : Str) :
    lexTags (opmlLit1 ++ Y) none
      = "?xml version=\"1.0\" encoding=\"UTF-8\"?".data ::
        "opml version=\"2.0\"".data :: "head".data :: "title".data ::
        "/title".data :: "dateCreated".data :: lexTags Y none := rfl

/-- Tokenising the literal between the two date insertions. -/
theorem lexTags_header2 (Y : Str) :
    lexTags (opmlLit2 ++ Y) none
      = "/dateCreated".data :: "dateModified".data :: lexTags Y none := rfl

/-- Tokenising the literal after the second date insertion. -/
theorem lexTags_header3 (Y : Str) :
    lexTags (opmlLit3 ++ Y) none
      = "/dateModified".data :: "/head".data :: "body".data :: lexTags Y none := rfl

/-- Tokenising the document footer. -/
theorem lexTags_footer :
    lexTags opmlLit4 none = ["/body".data, "/opml".data] := rfl

/-- Tokenising one category group of the grouped export body. -/
theorem lexTags_catGroup (c : Str) (fs : List OPMLFeedIn) (X : Str)
    (hc : '>' ∉ c) (hf : ∀ f ∈ fs, safeFeed f) :
    lexTags ((catLit1 ++ c ++ catLit2 ++ fs.flatMap feedOutline ++ catLit3) ++ X)
        none
      = catOpenContent c ::
          (fs.map outlineContent ++ ("/outline".data :: lexTags X none)) := by
  have h1 : (catLit1 ++ c ++ catLit2 ++ fs.flatMap feedOutline ++ catLit3) ++ X
      = "\n    <".data ++ ("outline text=\"".data ++
        (c ++ (['"'] ++ ('>' :: (flatBody fs ++ (catLit3 ++ X)))))) := by
    simp only [catLit1, catLit2, flatBody, List.append_assoc]
    rfl
  rw [h1]
  rw [show ∀ Y : Str, lexTags ("\n    <".data ++ ("outline text=\"".data ++ Y)) none
      = lexTags Y (some ("outline text=\"".data)) from fun Y => rfl]
  rw [lexTags_tag_pass _ _ _ hc,
      lexTags_tag_pass _ _ _ (by decide : ('>' : Char) ∉ ['"']),
      lexTags_emit,
      lexTags_flatBody fs _ hf]
  rw [show lexTags (catLit3 ++ X) none = "/outline".data :: lexTags X none from rfl]
  simp only [catOpenContent, List.append_assoc]

/-! ### C6: attribute-reader lemmas -/

/-- Inside a double-quoted value, quote-free text accumulates and the
closing quote emits the attribute. -/
theorem attrsAux_val (T Y n acc : Str) (h : '"' ∉ T) :
    attrsAux (T ++ '"' :: Y) (.aval n acc) = (n, acc ++ T) :: attrsAux Y .idle := by
  induction T generalizing acc with
  | nil => simp only [List.nil_append, List.append_nil]; rfl
  | cons c rest ih =>
    simp only [List.mem_cons, not_or] at h
    have h1 : ¬ c = '"' := fun hc => h.1 hc.symm
    rw [List.cons_append,
      show attrsAux (c :: (rest ++ '"' :: Y)) (.aval n acc)
        = if c = '"' then (n, acc) :: attrsAux (rest ++ '"' :: Y) .idle
          else attrsAux (rest ++ '"' :: Y) (.aval n (acc ++ [c])) from rfl,
      if_neg h1, ih _ h.2]
    simp

/-- The attributes of a generated feed outline, for quote-free values. -/
theorem parseAttrs_outlineContent (f : OPMLFeedIn)
    (hT : '"' ∉ f.title) (hU : '"' ∉ f.url) (hH : '"' ∉ f.htmlUrl.getD []) :
    parseAttrs (outlineContent f)
      = [("type".data, "rss".data), ("text".data, f.title),
         ("title".data, f.title), ("xmlUrl".data, f.url),
         ("htmlUrl".data, f.htmlUrl.getD [])] := by
  rw [parseAttrs]
  rw [show outlineContent f
      = "outline type=\"rss\" text=\"".data ++
        (f.title ++ ('"' :: (" title=\"".data ++
          (f.title ++ ('"' :: (" xmlUrl=\"".data ++
            (f.url ++ ('"' :: (" htmlUrl=\"".data ++
              (f.htmlUrl.getD [] ++ ('"' :: " /".data))))))))))) from by
    simp only [outlineContent, List.append_assoc]; rfl]
  rw [show ∀ Y : Str, attrsAux ("outline type=\"rss\" text=\"".data ++ Y) .idle
      = ("type".data, "rss".data) :: attrsAux Y (.aval "text".data [])
      from fun Y => rfl]
  rw [attrsAux_val _ _ _ _ hT]
  rw [show ∀ Y : Str, attrsAux (" title=\"".data ++ Y) .idle
      = attrsAux Y (.aval "title".data []) from fun Y => rfl]
  rw [attrsAux_val _ _ _ _ hT]
  rw [show ∀ Y : Str, attrsAux (" xmlUrl=\"".data ++ Y) .idle
      = attrsAux Y (.aval "xmlUrl".data []) from fun Y => rfl]
  rw [attrsAux_val _ _ _ _ hU]
  rw [show ∀ Y : Str, attrsAux (" htmlUrl=\"".data ++ Y) .idle
      = attrsAux Y (.aval "htmlUrl".data []) from fun Y => rfl]
  rw [attrsAux_val _ _ _ _ hH,
    show attrsAux " /".data .idle = ([] : List (Str × Str)) from rfl]
  simp

/-- The attributes of a generated category-wrapper opening tag. -/
theorem parseAttrs_catOpen (c : Str) (hc : '"' ∉ c) :
    parseAttrs (catOpenContent c) = [("text".data, c)] := by
  rw [parseAttrs,
    show catOpenContent c = "outline text=\"".data ++ (c ++ ('"' :: []))
      from by simp only [catOpenContent]]
  rw [show ∀ Y : Str, attrsAux ("outline text=\"".data ++ Y) .idle
      = attrsAux Y (.aval "text".data []) from fun Y => rfl]
  rw [attrsAux_val _ _ _ _ hc,
    show attrsAux ([] : Str) .idle = ([] : List (Str × Str)) from rfl]
  simp

/-- `getAttribute('xmlUrl')` on a generated feed outline. -/
theorem getAttr_outline_xmlUrl (f : OPMLFeedIn)
    (hT : '"' ∉ f.title) (hU : '"' ∉ f.url) (hH : '"' ∉ f.htmlUrl.getD []) :
    getAttr (outlineContent f) "xmlUrl".data = some f.url := by
  rw [getAttr, parseAttrs_outlineContent f hT hU hH]; rfl

/-- `getAttribute('title')` on a generated feed outline. -/
theorem getAttr_outline_title (f : OPMLFeedIn)
    (hT : '"' ∉ f.title) (hU : '"' ∉ f.url) (hH : '"' ∉ f.htmlUrl.getD []) :
    getAttr (outlineContent f) "title".data = some f.title := by
  rw [getAttr, parseAttrs_outlineContent f hT hU hH]; rfl

/-- `getAttribute('text')` on a generated feed outline. -/
theorem getAttr_outline_text (f : OPMLFeedIn)
    (hT : '"' ∉ f.title) (hU : '"' ∉ f.url) (hH : '"' ∉ f.htmlUrl.getD []) :
    getAttr (outlineContent f) "text".data = some f.title := by
  rw [getAttr, parseAttrs_outlineContent f hT hU hH]; rfl

/-- `getAttribute('htmlUrl')` on a generated feed outline. -/
theorem getAttr_outline_htmlUrl (f : OPMLFeedIn)
    (hT : '"' ∉ f.title) (hU : '"' ∉ f.url) (hH : '"' ∉ f.htmlUrl.getD []) :
    getAttr (outlineContent f) "htmlUrl".data = some (f.htmlUrl.getD []) := by
  rw [getAttr, parseAttrs_outlineContent f hT hU hH]; rfl

/-- `getAttribute('text')` on a category wrapper. -/
theorem getAttr_catOpen_text (c : Str) (hc : '"' ∉ c) :
    getAttr (catOpenContent c) "text".data = some c := by
  rw [getAttr, parseAttrs_catOpen c hc]; rfl

/-- A category wrapper has no `xmlUrl` attribute. -/
theorem getAttr_catOpen_xmlUrl (c : Str) (hc : '"' ∉ c) :
    getAttr (catOpenContent c) "xmlUrl".data = none := by
  rw [getAttr, parseAttrs_catOpen c hc]; rfl

/-- Element name of a generated feed outline. -/
theorem tagName_outline (f : OPMLFeedIn) :
    tagName (outlineContent f) = "outline".data := rfl

/-- Element name of a generated category wrapper. -/
theorem tagName_catOpen (c : Str) :
    tagName (catOpenContent c) = "outline".data := rfl

/-- A generated feed outline is not a closing tag. -/
theorem isCloseTag_outline (f : OPMLFeedIn) :
    isCloseTag (outlineContent f) = false := rfl

/-- A generated category wrapper is not a closing tag. -/
theorem isCloseTag_catOpen (c : Str) :
    isCloseTag (catOpenContent c) = false := rfl

/-- A generated feed outline is self-closing. -/
theorem isSelfClosing_outline (f : OPMLFeedIn) :
    isSelfClosing (outlineContent f) = true := by
  rw [isSelfClosing, decide_eq_true_eq, outlineContent]
  simp only [← List.append_assoc]
  rw [List.getLast?_append_of_ne_nil _ (by decide : ("\" /".data : Str) ≠ [])]
  rfl

/-- A generated category wrapper's opening tag is not self-closing. -/
theorem isSelfClosing_catOpen (c : Str) :
    isSelfClosing (catOpenContent c) = false := by
  rw [isSelfClosing, catOpenContent]
  simp only [← List.append_assoc]
  rw [List.getLast?_append_of_ne_nil _ (by decide : ("\"".data : Str) ≠ [])]
  rfl

/-- JavaScript `v || v` collapses. -/
theorem jsOr_self (v : Str) : jsOr (some v) (some v) = some v := by
  by_cases h : v = [] <;> simp [jsOr, h]

/-- The feed object built from a generated outline with quote-free
values. -/
theorem mkParsedFeed_outline (f : OPMLFeedIn) (stack : List (Option Str))
    (hT : '"' ∉ f.title) (hU : '"' ∉ f.url) (hH : '"' ∉ f.htmlUrl.getD []) :
    mkParsedFeed (outlineContent f) stack = parsedOf f (parentText stack) := by
  rw [mkParsedFeed, parsedOf, getAttr_outline_title f hT hU hH,
    getAttr_outline_text f hT hU hH, getAttr_outline_xmlUrl f hT hU hH,
    getAttr_outline_htmlUrl f hT hU hH, jsOr_self]

/-! ### C6: document-walk lemmas -/

/-- Walking one generated feed outline collects its parsed feed. -/
theorem walkTags_outline (f : OPMLFeedIn) (rest : List Str)
    (stack : List (Option Str))
    (hT : '"' ∉ f.title) (hU : '"' ∉ f.url) (hH : '"' ∉ f.htmlUrl.getD []) :
    walkTags (outlineContent f :: rest) stack
      = parsedOf f (parentText stack) :: walkTags rest stack := by
  simp only [walkTags, isCloseTag_outline, Bool.false_eq_true, if_false,
    tagName_outline, getAttr_outline_xmlUrl f hT hU hH, Option.isSome_some,
    isSelfClosing_outline, if_true, mkParsedFeed_outline f stack hT hU hH,
    and_true, List.singleton_append]

/-- Walking a run of generated feed outlines. -/
theorem walkTags_outList (feeds : List OPMLFeedIn) (rest : List Str)
    (stack : List (Option Str)) (h : ∀ f ∈ feeds, safeFeed f) :
    walkTags (feeds.map outlineContent ++ rest) stack
      = feeds.map (fun f => parsedOf f (parentText stack)) ++ walkTags rest stack := by
  induction feeds with
  | nil => rfl
  | cons f fs ih =>
    have hf := h f (List.mem_cons_self f fs)
    rw [List.map_cons, List.cons_append,
      walkTags_outline f _ stack (safeStr_not_quote hf.1) (safeStr_not_quote hf.2.1)
        (safeStr_not_quote hf.2.2.1),
      ih (fun g hg => h g (List.mem_cons_of_mem f hg)),
      List.map_cons, List.cons_append]

/-- Walking one category group: the wrapper pushes its `text` attribute,
the feeds see it as parent, the closing tag pops it. -/
theorem walkTags_catGroupTags (c : Str) (fs : List OPMLFeedIn) (rest : List Str)
    (stack : List (Option Str)) (hc : '"' ∉ c) (hf : ∀ f ∈ fs, safeFeed f) :
    walkTags (catOpenContent c ::
        (fs.map outlineContent ++ ("/outline".data :: rest))) stack
      = fs.map (fun f => parsedOf f (some c)) ++ walkTags rest stack := by
  have hstep : walkTags (catOpenContent c ::
        (fs.map outlineContent ++ ("/outline".data :: rest))) stack
      = walkTags (fs.map outlineContent ++ ("/outline".data :: rest))
          (some c :: stack) := by
    simp only [walkTags, isCloseTag_catOpen, Bool.false_eq_true, if_false,
      tagName_catOpen, getAttr_catOpen_xmlUrl c hc, Option.isSome_none,
      isSelfClosing_catOpen, getAttr_catOpen_text c hc, and_false, if_false,
      List.nil_append]
  rw [hstep, walkTags_outList fs _ _ hf,
    show walkTags ("/outline".data :: rest) (some c :: stack)
      = walkTags rest stack from rfl]
  rfl

/-- Walking the eleven header tags from the empty stack leaves the
`body`/`opml` stack. -/
theorem walkTags_header (X : List Str) :
    walkTags ("?xml version=\"1.0\" encoding=\"UTF-8\"?".data ::
      "opml version=\"2.0\"".data :: "head".data :: "title".data ::
      "/title".data :: "dateCreated".data :: "/dateCreated".data ::
      "dateModified".data :: "/dateModified".data :: "/head".data ::
      "body".data :: X) []
      = walkTags X [none, none, none] := rfl

/-- Walking the two footer tags yields nothing. -/
theorem walkTags_footer (S : List (Option Str)) :
    walkTags ["/body".data, "/opml".data] S = [] := rfl

/-! ### C6: first-occurrence deduplication lemmas -/

/-- Keys produced by `firstDedupAux` come from the input list. -/
theorem firstDedupAux_sub (l seen : List Str) (x : Str)
    (h : x ∈ firstDedupAux seen l) : x ∈ l := by
  induction l generalizing seen with
  | nil => simp [firstDedupAux] at h
  | cons a l ih =>
    rw [firstDedupAux] at h
    by_cases hmem : a ∈ seen
    · rw [if_pos hmem] at h
      exact List.mem_cons_of_mem a (ih _ h)
    · rw [if_neg hmem] at h
      rcases List.mem_cons.1 h with h | h
      · exact h ▸ List.mem_cons_self a l
      · exact List.mem_cons_of_mem a (ih _ h)

/-- Keys produced by `firstDedupAux` avoid the `seen` accumulator. -/
theorem firstDedupAux_not_seen (l seen : List Str) (x : Str)
    (h : x ∈ firstDedupAux seen l) : x ∉ seen := by
  induction l generalizing seen with
  | nil => simp [firstDedupAux] at h
  | cons a l ih =>
    rw [firstDedupAux] at h
    by_cases hmem : a ∈ seen
    · rw [if_pos hmem] at h
      exact ih _ h
    · rw [if_neg hmem] at h
      rcases List.mem_cons.1 h with h | h
      · exact h ▸ hmem
      · intro hx
        exact ih (a :: seen) h (List.mem_cons_of_mem a hx)

/-- `firstDedupAux` produces no duplicate keys. -/
theorem firstDedupAux_nodup (l seen : List Str) :
    (firstDedupAux seen l).Nodup := by
  induction l generalizing seen with
  | nil => exact List.nodup_nil
  | cons a l ih =>
    rw [firstDedupAux]
    by_cases hmem : a ∈ seen
    · rw [if_pos hmem]
      exact ih seen
    · rw [if_neg hmem]
      refine List.Nodup.cons ?_ (ih (a :: seen))
      intro hcontra
      exact firstDedupAux_not_seen l (a :: seen) a hcontra
        (List.mem_cons_self a seen)

/-- An unseen element of the input appears among the produced keys. -/
theorem firstDedupAux_mem (l seen : List Str) (x : Str)
    (hx : x ∈ l) (hs : x ∉ seen) : x ∈ firstDedupAux seen l := by
  induction l generalizing seen with
  | nil => simp at hx
  | cons a l ih =>
    rw [firstDedupAux]
    by_cases hmem : a ∈ seen
    · rw [if_pos hmem]
      rcases List.mem_cons.1 hx with h | h
      · exact absurd (h ▸ hmem) hs
      · exact ih _ h hs
    · rw [if_neg hmem]
      by_cases hax : x = a
      · exact hax ▸ List.mem_cons_self a _
      · rcases List.mem_cons.1 hx with h | h
        · exact absurd h hax
        · refine List.mem_cons_of_mem a (ih _ h ?_)
          simp only [List.mem_cons, not_or]
          exact ⟨hax, hs⟩

/-- `firstDedup` produces no duplicates. -/
theorem firstDedup_nodup (l : List Str) : (firstDedup l).Nodup :=
  firstDedupAux_nodup l []

/-- Every element of the input appears among the deduplicated keys. -/
theorem firstDedup_mem (l : List Str) (x : Str) (hx : x ∈ l) :
    x ∈ firstDedup l :=
  firstDedupAux_mem l [] x hx (by simp)

/-! ### C6: whole-document lemmas -/

/-- Tokenising the grouped export body, one group per key of `ks`. -/
theorem lexTags_groupedList (feeds : List OPMLFeedIn) (ks : List Str) (X : Str)
    (hks : ∀ c ∈ ks, '>' ∉ c) (hf : ∀ f ∈ feeds, safeFeed f) :
    lexTags ((ks.flatMap fun c =>
        catLit1 ++ c ++ catLit2 ++
          (feeds.filter (fun f => catOf f = c)).flatMap feedOutline ++ catLit3) ++ X)
        none
      = (ks.flatMap fun c =>
          catOpenContent c ::
            ((feeds.filter (fun f => catOf f = c)).map outlineContent ++
              ["/outline".data])) ++ lexTags X none := by
  induction ks with
  | nil => rfl
  | cons c ks ih =>
    rw [List.flatMap_cons, List.append_assoc,
      lexTags_catGroup c _ _ (hks c (List.mem_cons_self c ks))
        (fun f hfm => hf f ((List.mem_filter.1 hfm).1)),
      ih (fun d hd => hks d (List.mem_cons_of_mem c hd))]
    simp [List.append_assoc]

/-- Walking the grouped body's tags, one group per key of `ks`. -/
theorem walkTags_groupedList (feeds : List OPMLFeedIn) (ks : List Str)
    (X : List Str) (stack : List (Option Str))
    (hks : ∀ c ∈ ks, '"' ∉ c) (hf : ∀ f ∈ feeds, safeFeed f) :
    walkTags ((ks.flatMap fun c =>
        catOpenContent c ::
          ((feeds.filter (fun f => catOf f = c)).map outlineContent ++
            ["/outline".data])) ++ X) stack
      = (ks.flatMap fun c =>
          (feeds.filter (fun f => catOf f = c)).map (fun f => parsedOf f (some c)))
          ++ walkTags X stack := by
  induction ks with
  | nil => rfl
  | cons c ks ih =>
    rw [List.flatMap_cons, List.append_assoc, List.cons_append, List.append_assoc]
    rw [show (["/outline".data] ++ ((ks.flatMap fun c =>
          catOpenContent c ::
            ((feeds.filter (fun f => catOf f = c)).map outlineContent ++
              ["/outline".data])) ++ X) : List Str)
        = "/outline".data :: ((ks.flatMap fun c =>
            catOpenContent c ::
              ((feeds.filter (fun f => catOf f = c)).map outlineContent ++
                ["/outline".data])) ++ X) from rfl]
    rw [walkTags_catGroupTags c _ _ stack (hks c (List.mem_cons_self c ks))
        (fun f hfm => hf f ((List.mem_filter.1 hfm).1)),
      ih (fun d hd => hks d (List.mem_cons_of_mem c hd))]
    simp [List.append_assoc]

/-- Parsing a flat export recovers one parsed feed per exported feed, in
order, with the default category (the parent is `<body>`). -/
theorem parseOPML_flat (date : Str) (feeds : List OPMLFeedIn)
    (hdate : '<' ∉ date) (hsafe : ∀ f ∈ feeds, safeFeed f) :
    parseOPML (generateOPML false date feeds)
      = feeds.map (fun f => parsedOf f none) := by
  rw [parseOPML, generateOPML, if_neg (by simp)]
  simp only [List.append_assoc]
  rw [lexTags_header1, lexTags_skip date _ hdate, lexTags_header2,
    lexTags_skip date _ hdate, lexTags_header3, lexTags_flatBody feeds _ hsafe,
    lexTags_footer]
  rw [walkTags_header, walkTags_outList feeds _ _ hsafe, walkTags_footer]
  simp [parentText]

/-- Parsing a grouped export recovers the parsed feeds group by group,
each carrying its wrapper's category. -/
theorem parseOPML_grouped (date : Str) (feeds : List OPMLFeedIn)
    (hdate : '<' ∉ date) (hsafe : ∀ f ∈ feeds, safeFeed f) :
    parseOPML (generateOPML true date feeds)
      = (firstDedup (feeds.map catOf)).flatMap
          (fun c => (feeds.filter (fun f => catOf f = c)).map
            (fun f => parsedOf f (some c))) := by
  have hkey : ∀ c ∈ firstDedup (feeds.map catOf), safeStr c := by
    intro c hcmem
    have hsub : c ∈ feeds.map catOf := by
      have := hcmem
      rw [firstDedup] at this
      exact firstDedupAux_sub _ _ _ this
    rw [List.mem_map] at hsub
    obtain ⟨f, hfm, hcf⟩ := hsub
    rw [← hcf]
    exact (hsafe f hfm).2.2.2
  rw [parseOPML, generateOPML, if_pos rfl]
  simp only [List.append_assoc]
  rw [groupedBody]
  rw [lexTags_header1, lexTags_skip date _ hdate, lexTags_header2,
    lexTags_skip date _ hdate, lexTags_header3,
    lexTags_groupedList feeds _ _ (fun c hc => safeStr_not_gt (hkey c hc)) hsafe,
    lexTags_footer]
  rw [walkTags_header,
    walkTags_groupedList feeds _ _ _ (fun c hc => safeStr_not_quote (hkey c hc))
      hsafe,
    walkTags_footer]
  simp

/-! ### C6: regrouping is a permutation -/

/-- Concatenating, over a duplicate-free key list covering every element,
the sublists of elements filtered per key permutes the original list. -/
theorem flatMap_filter_key_perm (ks : List Str) (feeds : List OPMLFeedIn)
    (hnd : ks.Nodup) (hcov : ∀ f ∈ feeds, catOf f ∈ ks) :
    List.Perm (ks.flatMap fun c => feeds.filter (fun f => catOf f = c)) feeds := by
  induction ks generalizing feeds with
  | nil =>
    have : feeds = [] := by
      cases feeds with
      | nil => rfl
      | cons f fs => exact absurd (hcov f (List.mem_cons_self f fs)) (by simp)
    simp [this]
  | cons c ks ih =>
    rw [List.flatMap_cons]
    have hndc := List.nodup_cons.1 hnd
    have hcongr : (ks.flatMap fun d => feeds.filter (fun f => catOf f = d))
        = ks.flatMap fun d =>
            (feeds.filter (fun f => ¬ catOf f = c)).filter (fun f => catOf f = d) := by
      refine List.flatMap_congr ?_
      intro d hd
      rw [List.filter_filter]
      refine (List.filter_congr ?_).symm
      intro f _
      by_cases hfc : catOf f = d
      · have hdc : ¬ d = c := fun hdc => hndc.1 (hdc ▸ hd)
        simp [hfc, hdc]
      · simp [hfc]
    rw [hcongr]
    have hcov' : ∀ f ∈ feeds.filter (fun f => ¬ catOf f = c), catOf f ∈ ks := by
      intro f hf
      rw [List.mem_filter] at hf
      rcases List.mem_cons.1 (hcov f hf.1) with h | h
      · exact absurd h (by simpa using hf.2)
      · exact h
    have hperm := ih (feeds.filter (fun f => ¬ catOf f = c)) hndc.2 hcov'
    refine List.Perm.trans (List.Perm.append_left _ hperm) ?_
    have hsame : (feeds.filter fun f => ¬ catOf f = c)
        = feeds.filter fun f => !(decide (catOf f = c)) := by
      refine List.filter_congr ?_
      intro f _
      simp [decide_not]
    rw [hsame]
    exact List.filter_append_perm (fun f => catOf f = c) feeds

/-! ### C6: the claim -/

/-- The concrete feed whose title holds a double quote. -/
def c6BadFeed : OPMLFeedIn :=
  { title := "a\"".data, url := "u".data, htmlUrl := none, category := none }

/-- A concrete metacharacter-free feed. -/
def c6GoodFeed : OPMLFeedIn :=
  { title := "Le Monde".data, url := "https://x.y/rss".data,
    htmlUrl := some "https://x.y".data, category := some "Presse".data }

/-- C6 counterexample: for a title containing a double quote the
round-trip loses the title (`generateOPML` escapes nothing, so the quote
terminates the `text`/`title` attribute values early), refuting the
claim for arbitrary characters both as list equality and as a
permutation. -/
theorem C6_counterexample :
    (parseOPML (generateOPML false "d".data [c6BadFeed])).map projTU
      ≠ [c6BadFeed].map projFeedTU ∧
    ¬ List.Perm ((parseOPML (generateOPML false "d".data [c6BadFeed])).map projTU)
      ([c6BadFeed].map projFeedTU) := by decide

/-- C6 (amended): parsing the document produced by `generateOPML`
recovers exactly the exported feeds' titles and urls — in order for a
flat export, up to the grouping permutation with categories on —
provided the date holds no `<` and every interpolated string (title,
url, htmlUrl, category) is free of the XML metacharacters `<`, `>`,
`"`, `&`; without escaping, a double quote in a value breaks the
round-trip (see the counterexample). -/
theorem C6_opml_roundtrip (includeCategories : Bool) (date : Str)
    (feeds : List OPMLFeedIn) (hdate : '<' ∉ date)
    (hsafe : ∀ f ∈ feeds, safeFeed f) :
    (parseOPML (generateOPML false date feeds)).map projTU
      = feeds.map projFeedTU ∧
    List.Perm ((parseOPML (generateOPML includeCategories date feeds)).map projTU)
      (feeds.map projFeedTU) := by
  have hflat : (parseOPML (generateOPML false date feeds)).map projTU
      = feeds.map projFeedTU := by
    rw [parseOPML_flat date feeds hdate hsafe, List.map_map]
    rfl
  refine ⟨hflat, ?_⟩
  cases includeCategories with
  | false => rw [hflat]
  | true =>
    rw [parseOPML_grouped date feeds hdate hsafe, List.map_flatMap]
    have hshape : ((firstDedup (feeds.map catOf)).flatMap fun c =>
          ((feeds.filter (fun f => catOf f = c)).map
            (fun f => parsedOf f (some c))).map projTU)
        = ((firstDedup (feeds.map catOf)).flatMap fun c =>
            feeds.filter (fun f => catOf f = c)).map projFeedTU := by
      rw [List.map_flatMap]
      refine List.flatMap_congr ?_
      intro c _
      rw [List.map_map]
      rfl
    rw [hshape]
    exact List.Perm.map projFeedTU
      (flatMap_filter_key_perm _ feeds (firstDedup_nodup _)
        (fun f hf => firstDedup_mem _ _ (List.mem_map_of_mem catOf hf)))

/-- Witness for C6 at a concrete metacharacter-free feed list and date. -/
theorem C6_opml_roundtrip_witness :
    (parseOPML (generateOPML false "Mon, 01 Jan 2024 00:00:00 GMT".data
        [c6GoodFeed])).map projTU
      = [c6GoodFeed].map projFeedTU :=
  (C6_opml_roundtrip false "Mon, 01 Jan 2024 00:00:00 GMT".data [c6GoodFeed]
    (by decide) (by decide)).1

end Suprss
